import Mathlib

/-!
Shallow embedding of the MANGA-API repository (scraper.py, database.py,
api.py, tools.py) and proofs about the claims of its specification.

Python integers are modelled as `Nat`, byte strings as `List Nat`,
truthiness of the `is_downloaded` integer column as `≠ 0`,
and SQL rows as Lean structures.
-/

namespace MangaAPI

/-- A row of the chapter_images table (database.py, class ChapterImage). -/
structure ImgRow where
  order_no : Nat
  url : String
  image_data : Option (List Nat)
  mime_type : Option String
  is_downloaded : Nat
  deriving Repr, DecidableEq

/-! C3: MangaDetailsScarper.chapters (scraper.py 386-410) -/

/-- An li.wp-manga-chapter node: its a-element href and text. -/
structure ChapterNode where
  href : String
  title : String
  deriving Repr, DecidableEq

/-- A ChapterDetailed pydantic model (models.py). -/
structure ChapterDetailed where
  order_no : Nat
  url : String
  title : String
  deriving Repr, DecidableEq

/-- MangaDetailsScarper.chapters (scraper.py 386-410): reverses the matched
nodes, and builds the comprehension only under `if not chapter_nodes`;
every other path returns the empty list. -/
def chapters (page_nodes : List ChapterNode) : List ChapterDetailed :=
  let chapter_nodes := page_nodes.reverse
  if chapter_nodes.isEmpty then
    chapter_nodes.enum.map
      (fun p => { order_no := p.1, url := p.2.href, title := p.2.title })
  else []

/-! C4: get_chapter_status (api.py 274-292) -/

/-- The ChapterStatusResponse fields computed by get_chapter_status
(chapter_id and title omitted: they are copied through unchanged). -/
structure ChapterStatusResponse where
  total_images : Nat
  downloaded_images : Nat
  is_complete : Bool
  progress : ℚ
  deriving Repr, DecidableEq

/-- Number of images whose is_downloaded column is truthy:
`sum(1 for image in chapter.images if image.is_downloaded)` (api.py 283). -/
def downloadedCount (images : List ImgRow) : Nat :=
  (images.filter (fun im => im.is_downloaded ≠ 0)).length

/-- get_chapter_status (api.py 274-292), as a function of the chapter's
image rows. -/
def get_chapter_status (images : List ImgRow) : ChapterStatusResponse :=
  let total_images := images.length
  let downloaded_images := downloadedCount images
  { total_images := total_images
    downloaded_images := downloaded_images
    is_complete := total_images == downloaded_images
    progress := if total_images > 0
      then (downloaded_images : ℚ) / (total_images : ℚ) * 100 else 0 }

/-! C5: ChapterImagesScraper.images (scraper.py 460-473) -/

/-- The ChapterImage pydantic model (models.py). -/
structure ChapterImage where
  order_no : Nat
  url : String
  deriving Repr, DecidableEq

/-- Python str.strip(): remove whitespace from both ends of the string. -/
def pyStrip (s : String) : String :=
  ⟨((s.data.dropWhile Char.isWhitespace).reverse.dropWhile
      Char.isWhitespace).reverse⟩

/-- ChapterImagesScraper.images (scraper.py 460-473): enumerate the
img.wp-manga-chapter-img nodes of the document in document order, pairing
index with the stripped src attribute. `srcs` is the list of src attributes
of the matching nodes in document order. -/
def images (srcs : List String) : List ChapterImage :=
  srcs.enum.map (fun p => { order_no := p.1, url := pyStrip p.2 })

/-! Theorems for C3, C4, C5 -/

/-- C3: for every parsed manga page, MangaDetailsScarper.chapters returns
the empty list: the comprehension is guarded by `if not chapter_nodes`, so
it runs only over the empty reversed list, and every other path returns
the empty list as well. -/
theorem c3_chapters_always_empty (page_nodes : List ChapterNode) :
    chapters page_nodes = [] := by
  unfold chapters
  by_cases h : page_nodes.reverse.isEmpty
  · simp only [h, if_true]
    rw [List.isEmpty_iff] at h
    simp [h]
  · simp [h]

/-- C4: for a chapter with N stored images of which K have is_downloaded
set, get_chapter_status returns total=N, downloaded=K, complete=(K==N),
and progress=K/N*100, with progress=0 when N=0 via the explicit guard on
total rather than a division-by-zero error. -/
theorem c4_chapter_status_formula (imgs : List ImgRow) :
    (get_chapter_status imgs).total_images = imgs.length ∧
    (get_chapter_status imgs).downloaded_images = downloadedCount imgs ∧
    ((get_chapter_status imgs).is_complete = true ↔
      downloadedCount imgs = imgs.length) ∧
    (get_chapter_status imgs).progress =
      (if imgs.length = 0 then 0
       else (downloadedCount imgs : ℚ) / (imgs.length : ℚ) * 100) := by
  refine ⟨rfl, rfl, ?_, ?_⟩
  · show (imgs.length == downloadedCount imgs) = true ↔ _
    rw [beq_iff_eq]
    exact eq_comm
  · show (if imgs.length > 0
        then (downloadedCount imgs : ℚ) / (imgs.length : ℚ) * 100 else 0) = _
    rcases Nat.eq_zero_or_pos imgs.length with h | h
    · rw [if_neg (by omega), if_pos h]
    · rw [if_pos h, if_neg (by omega)]

/-- C5: the image extractor numbers pages consecutively from 0 in document
order of the selector matches, returns the empty sequence on a page with
no matching nodes, and on a page with exactly the three srcs a.jpg, b.jpg,
c.jpg yields [(0, a.jpg), (1, b.jpg), (2, c.jpg)]. -/
theorem c5_images_enumeration (srcs : List String) :
    (images srcs).map (fun ci => ci.order_no) = List.range srcs.length ∧
    (images srcs).map (fun ci => ci.url) = srcs.map pyStrip ∧
    images ([] : List String) = [] ∧
    images ["a.jpg", "b.jpg", "c.jpg"] =
      [{ order_no := 0, url := "a.jpg" }, { order_no := 1, url := "b.jpg" },
       { order_no := 2, url := "c.jpg" }] := by
  refine ⟨?_, ?_, rfl, ?_⟩
  · rw [images, List.map_map]
    have h : ((fun ci : ChapterImage => ci.order_no) ∘
        (fun p : Nat × String =>
          ({ order_no := p.1, url := pyStrip p.2 } : ChapterImage))) =
        Prod.fst := rfl
    rw [h, List.enum_map_fst]
  · rw [images, List.map_map]
    have h : ((fun ci : ChapterImage => ci.url) ∘
        (fun p : Nat × String =>
          ({ order_no := p.1, url := pyStrip p.2 } : ChapterImage))) =
        (pyStrip ∘ Prod.snd) := rfl
    rw [h, ← List.map_map, List.enum_map_snd]
  · decide

/-! C10: get_extension (tools.py) -/

/-- One step of Python str.split for a one-character separator: prepend a
character to the list of segments built so far. -/
def splitStep (sep c : Char) : List (List Char) → List (List Char)
  | [] => [[]]
  | seg :: segs => if c = sep then [] :: seg :: segs else (c :: seg) :: segs

/-- Python str.split(sep) for a one-character separator, over the
character list of the string. -/
def pySplit (sep : Char) : List Char → List (List Char)
  | [] => [[]]
  | c :: cs => splitStep sep c (pySplit sep cs)

/-- get_extension (tools.py): url.split(".")[-1], with the last character
removed when that segment ends with "/". -/
def get_extension (url : List Char) : List Char :=
  let extension := (pySplit (Char.ofNat 46) url).getLastD []
  if extension.getLast? = some (Char.ofNat 47) then extension.dropLast
  else extension

/-- Whether the character list contains a dot. -/
def hasDot : List Char → Bool
  | [] => false
  | c :: cs => if c = Char.ofNat 46 then true else hasDot cs

/-- The claim's description of the split step: the substring of the url
after its last dot, or the url itself when it contains no dot. -/
def afterLastDot : List Char → List Char
  | [] => []
  | c :: cs =>
    if hasDot cs then afterLastDot cs
    else if c = Char.ofNat 46 then cs
    else c :: cs

/-- The claim's description of the second step: a single trailing slash is
removed when present. -/
def stripTrailingSlash (l : List Char) : List Char :=
  if l.getLast? = some (Char.ofNat 47) then l.dropLast else l

theorem splitStep_ne_nil (sep c : Char) (acc : List (List Char)) :
    splitStep sep c acc ≠ [] := by
  cases acc with
  | nil => simp [splitStep]
  | cons seg segs =>
    by_cases hc : c = sep <;> simp [splitStep, hc]

theorem pySplit_ne_nil (sep : Char) (l : List Char) : pySplit sep l ≠ [] := by
  cases l with
  | nil => simp [pySplit]
  | cons c cs =>
    show splitStep sep c (pySplit sep cs) ≠ []
    exact splitStep_ne_nil _ _ _

theorem pySplit_no_dot {l : List Char} (h : hasDot l = false) :
    pySplit (Char.ofNat 46) l = [l] := by
  induction l with
  | nil => rfl
  | cons c cs ih =>
    by_cases hc : c = Char.ofNat 46
    · rw [hasDot, if_pos hc] at h
      simp at h
    · rw [hasDot, if_neg hc] at h
      show splitStep (Char.ofNat 46) c (pySplit (Char.ofNat 46) cs) = [c :: cs]
      rw [ih h]
      simp [splitStep, hc]

theorem afterLastDot_no_dot {l : List Char} (h : hasDot l = false) :
    afterLastDot l = l := by
  cases l with
  | nil => rfl
  | cons c cs =>
    by_cases hc : c = Char.ofNat 46
    · rw [hasDot, if_pos hc] at h
      simp at h
    · rw [hasDot, if_neg hc] at h
      rw [afterLastDot, h]
      simp [hc]

theorem pySplit_two_le {l : List Char} (h : hasDot l = true) :
    2 ≤ (pySplit (Char.ofNat 46) l).length := by
  induction l with
  | nil => simp [hasDot] at h
  | cons c cs ih =>
    show 2 ≤ (splitStep (Char.ofNat 46) c (pySplit (Char.ofNat 46) cs)).length
    cases hsp : pySplit (Char.ofNat 46) cs with
    | nil => exact absurd hsp (pySplit_ne_nil _ _)
    | cons seg segs =>
      by_cases hc : c = Char.ofNat 46
      · simp [splitStep, hc]
      · rw [hasDot, if_neg hc] at h
        have h2 := ih h
        rw [hsp] at h2
        simp only [List.length_cons] at h2
        simp only [splitStep, if_neg hc, List.length_cons]
        omega

theorem pySplit_getLastD (l : List Char) :
    (pySplit (Char.ofNat 46) l).getLastD [] = afterLastDot l := by
  induction l with
  | nil => rfl
  | cons c cs ih =>
    show (splitStep (Char.ofNat 46) c (pySplit (Char.ofNat 46) cs)).getLastD []
      = afterLastDot (c :: cs)
    rw [afterLastDot]
    cases hsp : pySplit (Char.ofNat 46) cs with
    | nil => exact absurd hsp (pySplit_ne_nil _ _)
    | cons seg segs =>
      rw [hsp] at ih
      by_cases hd : hasDot cs
      · rw [if_pos hd]
        simp only [splitStep]
        by_cases hc : c = Char.ofNat 46
        · rw [if_pos hc, List.getLastD_cons]
          exact ih
        · rw [if_neg hc]
          have h2 := pySplit_two_le hd
          rw [hsp] at h2
          cases segs with
          | nil => simp at h2
          | cons b bs =>
            rw [List.getLastD_cons, List.getLastD_cons]
            rw [List.getLastD_cons, List.getLastD_cons] at ih
            exact ih
      · rw [if_neg hd]
        have hdf : hasDot cs = false := by
          cases hdd : hasDot cs
          · rfl
          · exact absurd hdd hd
        have hone : pySplit (Char.ofNat 46) cs = [cs] := pySplit_no_dot hdf
        rw [hsp] at hone
        injection hone with hseg hsegs
        subst hseg
        subst hsegs
        simp only [splitStep]
        by_cases hc : c = Char.ofNat 46
        · rw [if_pos hc, if_pos hc]
          rfl
        · rw [if_neg hc, if_neg hc]
          rfl

/-- C10: get_extension returns the substring of the url after its last
dot with a single trailing slash removed (the whole url when it has no
dot); in particular a dot-free input is returned unchanged, a query
string after the extension is kept, a multi-part extension yields only
its last segment, and the two latter behaviours contradict the bundled
unit test expectations. -/
theorem c10_get_extension_spec :
    (∀ url : List Char,
      get_extension url = stripTrailingSlash (afterLastDot url)) ∧
    get_extension "file".data = "file".data ∧
    get_extension "a.jpg?x=1".data = "jpg?x=1".data ∧
    get_extension "archive.tar.gz".data = "gz".data ∧
    get_extension "https://example.com/archive.tar.gz".data ≠ "tar.gz".data ∧
    get_extension "https://example.com/dir/".data ≠ "".data := by
  refine ⟨?_, by decide, by decide, by decide, by decide, by decide⟩
  intro url
  rw [get_extension, stripTrailingSlash, pySplit_getLastD]

/-! C6: get_session retry policy (scraper.py 63-94) -/

/-- The fields of a urllib3 Retry object that get_session configures. -/
structure RetryPolicy where
  total : Nat
  backoff_factor : ℚ
  status_forcelist : List Nat
  allowed_methods : List String
  deriving Repr, DecidableEq

/-- The Retry object built by get_session at its default arguments
(scraper.py 87-88): total=3, backoff_factor=0.3,
status_forcelist=(500, 502, 504), allowed_methods={GET, POST}. -/
def sessionRetryPolicy : RetryPolicy :=
  { total := 3
    backoff_factor := 3 / 10
    status_forcelist := [500, 502, 504]
    allowed_methods := ["GET", "POST"] }

/-- The backoff delay before a retry, as documented at scraper.py 74:
delay = backoff_factor * 2 ^ (retry_number - 1). -/
def backoffDelay (p : RetryPolicy) (retry_number : Nat) : ℚ :=
  p.backoff_factor * 2 ^ (retry_number - 1)

/-- Whether the configured Retry retries a response: the request method
must be in allowed_methods and the status in status_forcelist. -/
def willRetry (p : RetryPolicy) (method : String) (status : Nat) : Bool :=
  p.allowed_methods.contains method && p.status_forcelist.contains status

/-- Modelled from the spec: section 4.1 claims retries happen only "for
idempotent methods"; these are the idempotent HTTP methods of RFC 7231,
which the source never consults. -/
def idempotentMethods : List String :=
  ["GET", "HEAD", "PUT", "DELETE", "OPTIONS", "TRACE"]

/-- C6 counterexample: the session retries POST requests, yet POST is not
an idempotent HTTP method, so the claim that the policy retries only for
idempotent methods is false. -/
theorem c6_retry_nonidempotent_counterexample :
    willRetry sessionRetryPolicy "POST" 500 = true ∧
    idempotentMethods.contains "POST" = false := by decide

/-- C6 amended: the policy allows at most 3 retries, the backoff delay
starts at 0.3 seconds and doubles per attempt, and a retry happens
exactly when the status is one of 500, 502, 504 and the method one of
GET and POST (POST is not idempotent). -/
theorem c6_retry_policy_amended :
    sessionRetryPolicy.total = 3 ∧
    backoffDelay sessionRetryPolicy 1 = 3 / 10 ∧
    (∀ n : Nat, backoffDelay sessionRetryPolicy (n + 2) =
      2 * backoffDelay sessionRetryPolicy (n + 1)) ∧
    (∀ (m : String) (s : Nat), willRetry sessionRetryPolicy m s = true ↔
      ((m = "GET" ∨ m = "POST") ∧ (s = 500 ∨ s = 502 ∨ s = 504))) := by
  refine ⟨rfl, by norm_num [backoffDelay, sessionRetryPolicy], ?_, ?_⟩
  · intro n
    show (3 / 10 : ℚ) * 2 ^ (n + 1) = 2 * ((3 / 10 : ℚ) * 2 ^ n)
    rw [pow_succ]
    ring
  · intro m s
    simp only [willRetry, sessionRetryPolicy, Bool.and_eq_true,
      List.elem_iff, List.mem_cons, List.mem_singleton, List.not_mem_nil,
      or_false]

/-! C7, C9: set_image_from_bytes (database.py 149-153) and the
per-image download lifecycle (api.py 61-84) -/

/-- ChapterImage.set_image_from_bytes (database.py 149-153): store the
bytes and the mime type and set is_downloaded to 1. -/
def set_image_from_bytes (r : ImgRow) (image_bytes : List Nat)
    (mime : String) : ImgRow :=
  { r with image_data := some image_bytes
           mime_type := some mime
           is_downloaded := 1 }

/-- The mark-downloaded operation keyed by order number: update in place
the row whose order_no matches. download_chapter_images (api.py 72-84)
mutates rows of the existing collection, and save_chapter_images
(database.py 264-304) looks an existing row up by (chapter_id, order_no)
and overwrites it instead of inserting a second one. -/
def mark_downloaded (rows : List ImgRow) (ord : Nat)
    (image_bytes : List Nat) (mime : String) : List ImgRow :=
  rows.map (fun r => if r.order_no = ord
    then set_image_from_bytes r image_bytes mime else r)

/-- One pass of download_chapter_images (api.py 72-84) on a single row:
rows already downloaded are skipped; otherwise the fetch outcome (content
and mime type, or None on error) is stored only when both content and
mime type are truthy. -/
def downloadPassRow (fetch : String → Option (List Nat × String))
    (r : ImgRow) : ImgRow :=
  if r.is_downloaded ≠ 0 then r
  else
    match fetch r.url with
    | some (content, mime) =>
      if content ≠ [] ∧ mime ≠ "" then set_image_from_bytes r content mime
      else r
    | none => r

/-- The operations of the per-image lifecycle the claim quantifies over:
a background download pass, a mark-downloaded call, a status query and a
PDF generation (the two latter read rows without writing them). -/
inductive ImgOp where
  | downloadPass (fetch : String → Option (List Nat × String))
  | mark (ord : Nat) (image_bytes : List Nat) (mime : String)
  | statusQuery
  | pdfQuery

/-- Effect of one lifecycle operation on one stored row. -/
def applyRow : ImgOp → ImgRow → ImgRow
  | .downloadPass fetch, r => downloadPassRow fetch r
  | .mark ord b m, r =>
    if r.order_no = ord then set_image_from_bytes r b m else r
  | .statusQuery, r => r
  | .pdfQuery, r => r

/-- Effect of one lifecycle operation on the chapter's rows. -/
def applyOp (op : ImgOp) (rows : List ImgRow) : List ImgRow :=
  rows.map (applyRow op)

/-- Effect of a sequence of lifecycle operations. -/
def applyOps (ops : List ImgOp) (rows : List ImgRow) : List ImgRow :=
  ops.foldl (fun st op => applyOp op st) rows

theorem applyRow_order_no (op : ImgOp) (r : ImgRow) :
    (applyRow op r).order_no = r.order_no := by
  cases op with
  | downloadPass fetch =>
    show (downloadPassRow fetch r).order_no = r.order_no
    rw [downloadPassRow]
    by_cases h : r.is_downloaded ≠ 0
    · rw [if_pos h]
    · rw [if_neg h]
      cases fetch r.url with
      | none => rfl
      | some p =>
        by_cases h2 : p.1 ≠ [] ∧ p.2 ≠ ""
        · simp [h2, set_image_from_bytes]
        · simp [h2]
  | mark ord b m =>
    show (if r.order_no = ord then _ else r).order_no = r.order_no
    by_cases h : r.order_no = ord
    · simp [h, set_image_from_bytes]
    · simp [h]
  | statusQuery => rfl
  | pdfQuery => rfl

theorem applyRow_downloaded (op : ImgOp) (r : ImgRow)
    (h : r.is_downloaded = 1) : (applyRow op r).is_downloaded = 1 := by
  cases op with
  | downloadPass fetch =>
    show (downloadPassRow fetch r).is_downloaded = 1
    rw [downloadPassRow, if_pos (by omega)]
    exact h
  | mark ord b m =>
    show (if r.order_no = ord then _ else r).is_downloaded = 1
    by_cases hord : r.order_no = ord
    · simp [hord, set_image_from_bytes]
    · simp [hord, h]
  | statusQuery => exact h
  | pdfQuery => exact h

theorem applyOps_eq_map (ops : List ImgOp) (rows : List ImgRow) :
    applyOps ops rows =
      rows.map (fun r => ops.foldl (fun x op => applyRow op x) r) := by
  induction ops generalizing rows with
  | nil => simp [applyOps]
  | cons op ops ih =>
    show applyOps ops (applyOp op rows) = _
    rw [ih, applyOp, List.map_map]
    rfl

theorem foldl_applyRow_downloaded (ops : List ImgOp) (r : ImgRow)
    (h : r.is_downloaded = 1) :
    (ops.foldl (fun x op => applyRow op x) r).is_downloaded = 1 ∧
    (ops.foldl (fun x op => applyRow op x) r).order_no = r.order_no := by
  induction ops generalizing r with
  | nil => exact ⟨h, rfl⟩
  | cons op ops ih =>
    have h2 := ih (applyRow op r) (applyRow_downloaded op r h)
    refine ⟨?_, ?_⟩
    · rw [List.foldl_cons]
      exact h2.1
    · rw [List.foldl_cons, h2.2, applyRow_order_no]

/-- C7: marking an image as downloaded is idempotent: a second invocation
with identical arguments leaves each row exactly as one invocation does
(set_image_from_bytes itself is idempotent as well), and re-invoking with
the same order number overwrites in place, never changing the number of
rows. -/
theorem c7_mark_downloaded_idempotent (rows : List ImgRow) (ord : Nat)
    (b : List Nat) (m : String) :
    mark_downloaded (mark_downloaded rows ord b m) ord b m =
      mark_downloaded rows ord b m ∧
    (mark_downloaded rows ord b m).length = rows.length ∧
    (∀ r : ImgRow,
      set_image_from_bytes (set_image_from_bytes r b m) b m =
        set_image_from_bytes r b m) := by
  refine ⟨?_, by simp [mark_downloaded], fun r => rfl⟩
  induction rows with
  | nil => rfl
  | cons r rs ih =>
    simp only [mark_downloaded, List.map_cons] at ih ⊢
    rw [ih]
    congr 1
    by_cases h : r.order_no = ord
    · simp [h, set_image_from_bytes]
    · simp [h]

/-- C9: the per-image state machine is one-way: across every sequence of
lifecycle operations no row ever moves from is_downloaded = 1 back to 0,
and a failed fetch leaves the row exactly as it was (Pending, with no
distinct failure state). -/
theorem c9_is_downloaded_monotone (ops : List ImgOp) (rows : List ImgRow)
    (i : Nat) (r : ImgRow) (fetch : String → Option (List Nat × String))
    (pending : ImgRow)
    (hget : rows.get? i = some r) (hdl : r.is_downloaded = 1)
    (hfail : fetch pending.url = none) :
    (∃ r2 : ImgRow, (applyOps ops rows).get? i = some r2 ∧
      r2.is_downloaded = 1 ∧ r2.order_no = r.order_no) ∧
    downloadPassRow fetch pending = pending := by
  constructor
  · rw [applyOps_eq_map, List.get?_map, hget]
    have h2 := foldl_applyRow_downloaded ops r hdl
    exact ⟨_, rfl, h2.1, h2.2⟩
  · rw [downloadPassRow]
    by_cases h : pending.is_downloaded ≠ 0
    · rw [if_pos h]
    · rw [if_neg h, hfail]

/-- C9 witness: the monotonicity theorem applied to one concrete
downloaded row, a concrete operation sequence and a failing fetch. -/
theorem c9_is_downloaded_monotone_witness :
    (([⟨0, "u", none, none, 1⟩] : List ImgRow).get? 0 =
      some ⟨0, "u", none, none, 1⟩) ∧
    ((⟨0, "u", none, none, 1⟩ : ImgRow).is_downloaded = 1) ∧
    ((fun _ : String => (none : Option (List Nat × String)))
      (⟨1, "v", none, none, 0⟩ : ImgRow).url = none) ∧
    ((∃ r2 : ImgRow,
        (applyOps [ImgOp.statusQuery] [⟨0, "u", none, none, 1⟩]).get? 0 =
          some r2 ∧ r2.is_downloaded = 1 ∧
          r2.order_no = (⟨0, "u", none, none, 1⟩ : ImgRow).order_no) ∧
      downloadPassRow (fun _ : String => none) ⟨1, "v", none, none, 0⟩ =
        ⟨1, "v", none, none, 0⟩) :=
  ⟨rfl, rfl, rfl,
    c9_is_downloaded_monotone [ImgOp.statusQuery] [⟨0, "u", none, none, 1⟩]
      0 ⟨0, "u", none, none, 1⟩ (fun _ => none) ⟨1, "v", none, none, 0⟩
      rfl rfl rfl⟩

/-! C8 and C1: Chapter.generate_pdf (database.py 112-129) and the
tmp-file ordering of download_images_as_pdf (scraper.py 501-535) -/

/-- The key Python sorted uses in get_ordered_images: order_no ascending. -/
def byOrderLe (a b : ImgRow) : Prop := a.order_no ≤ b.order_no

/-- Strict version of byOrderLe, for uniqueness of the sorted list. -/
def byOrderLt (a b : ImgRow) : Prop := a.order_no < b.order_no

instance : DecidableRel byOrderLe := fun a b => Nat.decLe a.order_no b.order_no

instance : IsTotal ImgRow byOrderLe := ⟨fun a b => Nat.le_total a.order_no b.order_no⟩

instance : IsTrans ImgRow byOrderLe := ⟨fun _ _ _ => Nat.le_trans⟩

instance : IsAntisymm ImgRow byOrderLt :=
  ⟨fun _ _ h1 h2 => absurd (Nat.lt_trans h1 h2) (Nat.lt_irrefl _)⟩

/-- Chapter.get_ordered_images (database.py 112-114): the stored images
sorted by order_no (Python sorted with key x.order_no, a stable sort). -/
def get_ordered_images (imgs : List ImgRow) : List ImgRow :=
  List.insertionSort byOrderLe imgs

/-- Modelled from the spec: the PIL decode-and-resave-as-JPEG step of
generate_pdf (database.py 121-123), an external library; a JPEG stream
opens with the SOI marker bytes and keeps the image payload. -/
def jpegEncode (image_bytes : List Nat) : List Nat :=
  255 :: 216 :: image_bytes

/-- The percent sign, P, D, F: the bytes opening every PDF header. -/
def pdfHeader : List Nat := [37, 80, 68, 70]

/-- Modelled from the spec: img2pdf.convert (spec section 4.4, "converts
an ordered list of raster images into a single PDF byte stream"), an
external library: one page per input image, pages in input order. -/
def img2pdfConvert (image_list : List (List Nat)) : List Nat :=
  pdfHeader ++ [image_list.length % 256] ++ image_list.join

/-- Number of pages a stream produced by img2pdfConvert declares; none
when the stream does not open with the PDF header. -/
def pdfPageCount (b : List Nat) : Option Nat :=
  if b.take 4 = pdfHeader then b.get? 4 else none

/-- Chapter.generate_pdf (database.py 116-129): re-encode as JPEG those
ordered images whose image_data is truthy, then convert; when no image
qualifies nothing is written and the stream stays empty. -/
def generate_pdf (imgs : List ImgRow) : List Nat :=
  let image_list := (get_ordered_images imgs).filterMap
    (fun ci => match ci.image_data with
      | some d => if d ≠ [] then some (jpegEncode d) else none
      | none => none)
  if image_list.isEmpty then [] else img2pdfConvert image_list

/-- C8: generating the PDF of a chapter with no stored images yields the
empty byte sequence (no header emitted, no error raised), and of a single
downloaded image with nonempty data a nonempty, valid single-page PDF. -/
theorem c8_generate_pdf_empty_and_single (ord : Nat) (u : String)
    (mt : Option String) (b : Nat) (rest : List Nat) :
    generate_pdf [] = [] ∧
    generate_pdf [⟨ord, u, some (b :: rest), mt, 1⟩] ≠ [] ∧
    pdfPageCount (generate_pdf [⟨ord, u, some (b :: rest), mt, 1⟩]) =
      some 1 := by
  have hone : generate_pdf [⟨ord, u, some (b :: rest), mt, 1⟩] =
      37 :: 80 :: 68 :: 70 :: 1 :: 255 :: 216 :: b :: rest := by
    simp [generate_pdf, get_ordered_images, List.insertionSort,
      jpegEncode, img2pdfConvert, pdfHeader]
  refine ⟨rfl, ?_, ?_⟩
  · rw [hone]
    simp
  · rw [hone]
    rfl

/-- The tmp_files list built by the as_completed collection loop of
download_images_as_pdf (scraper.py 517-526) when every download succeeds:
paths are appended in completion order. paths holds the per-url temp
paths in submission (order_no) order, and completion lists the indices of
the submitted futures in the order they complete. -/
def tmp_files_completion (paths : List String) (completion : List Nat) :
    List String :=
  completion.filterMap (fun i => paths.get? i)

/-- C1 counterexample: with two images and completion order [1, 0] — a
permutation of the submission order — download_images_as_pdf hands
img2pdf the temp files in completion order, not in order_no order. -/
theorem c1_completion_order_counterexample :
    ¬ (∀ (paths : List String) (completion : List Nat),
        completion.Perm (List.range paths.length) →
        tmp_files_completion paths completion = paths) := by
  intro hall
  have h := hall ["p0", "p1"] [1, 0] (by decide)
  have h2 : tmp_files_completion ["p0", "p1"] [1, 0] = ["p1", "p0"] := rfl
  rw [h2] at h
  exact absurd h (by decide)

theorem sorted_lt_of_le_nodup {l : List ImgRow} (hs : l.Sorted byOrderLe)
    (hn : (l.map (fun r => r.order_no)).Nodup) : l.Sorted byOrderLt := by
  have hne : l.Pairwise (fun a b : ImgRow => a.order_no ≠ b.order_no) :=
    (List.pairwise_map).mp hn
  exact (hs.and hne).imp
    (fun h => Nat.lt_of_le_of_ne h.1 h.2)

/-- C1 amended: download_images_as_pdf passes the temp files to img2pdf
in download-completion order (see the counterexample); the ordering
guarantee holds for Chapter.generate_pdf instead: its ordered image list
is sorted ascending by order_no, and when the order_no values are
distinct the generated PDF bytes do not depend on the arrival order of
the stored rows. -/
theorem c1_generate_pdf_order_no (imgs1 imgs2 : List ImgRow)
    (hperm : imgs1.Perm imgs2)
    (hnodup : (imgs1.map (fun r => r.order_no)).Nodup) :
    (get_ordered_images imgs1).Sorted byOrderLe ∧
    generate_pdf imgs1 = generate_pdf imgs2 := by
  have hs1 : (get_ordered_images imgs1).Sorted byOrderLe :=
    List.sorted_insertionSort byOrderLe imgs1
  have hs2 : (get_ordered_images imgs2).Sorted byOrderLe :=
    List.sorted_insertionSort byOrderLe imgs2
  refine ⟨hs1, ?_⟩
  have hp1 : (get_ordered_images imgs1).Perm imgs1 :=
    List.perm_insertionSort byOrderLe imgs1
  have hp2 : (get_ordered_images imgs2).Perm imgs2 :=
    List.perm_insertionSort byOrderLe imgs2
  have hp12 : (get_ordered_images imgs1).Perm (get_ordered_images imgs2) :=
    hp1.trans (hperm.trans hp2.symm)
  have hn1 : ((get_ordered_images imgs1).map (fun r => r.order_no)).Nodup :=
    ((hp1.map (fun r => r.order_no)).nodup_iff).mpr hnodup
  have hn2 : ((get_ordered_images imgs2).map (fun r => r.order_no)).Nodup :=
    ((hp12.map (fun r => r.order_no)).nodup_iff).mp hn1
  have heq : get_ordered_images imgs1 = get_ordered_images imgs2 :=
    List.eq_of_perm_of_sorted hp12
      (sorted_lt_of_le_nodup hs1 hn1) (sorted_lt_of_le_nodup hs2 hn2)
  simp only [generate_pdf, heq]

/-- C1 witness: the amended ordering theorem applied to two concrete
arrival orders of the same two rows. -/
theorem c1_generate_pdf_order_no_witness :
    (([⟨1, "b", none, none, 0⟩, ⟨0, "a", none, none, 0⟩] : List ImgRow).Perm
      [⟨0, "a", none, none, 0⟩, ⟨1, "b", none, none, 0⟩]) ∧
    (([⟨1, "b", none, none, 0⟩, ⟨0, "a", none, none, 0⟩] : List ImgRow).map
      (fun r => r.order_no)).Nodup ∧
    ((get_ordered_images
        [⟨1, "b", none, none, 0⟩, ⟨0, "a", none, none, 0⟩]).Sorted byOrderLe ∧
      generate_pdf [⟨1, "b", none, none, 0⟩, ⟨0, "a", none, none, 0⟩] =
        generate_pdf [⟨0, "a", none, none, 0⟩, ⟨1, "b", none, none, 0⟩]) :=
  ⟨by decide, by decide,
    c1_generate_pdf_order_no
      [⟨1, "b", none, none, 0⟩, ⟨0, "a", none, none, 0⟩]
      [⟨0, "a", none, none, 0⟩, ⟨1, "b", none, none, 0⟩]
      (by decide) (by decide)⟩

/-! C2: scratch-file cleanup in download_images_as_pdf
(scraper.py 475-535) -/

/-- Outcome of one _download_to_temp worker (scraper.py 475-499): the GET
can fail before the temp file exists (raise_for_status comes first), the
body transfer can fail after creation (the file stays on disk and the
name is never returned), or the download succeeds and returns the path. -/
inductive DownloadOutcome where
  | ok (path : String)
  | httpFail
  | writeFail (path : String)
  deriving Repr, DecidableEq

/-- The temp file a worker leaves on disk, if any. -/
def outcomePath : DownloadOutcome → Option String
  | .ok p => some p
  | .httpFail => none
  | .writeFail p => some p

/-- What fut.result() delivers for the worker: the path on success, a
re-raised exception otherwise. -/
def outcomeResult : DownloadOutcome → Option String
  | .ok p => some p
  | .httpFail => none
  | .writeFail _ => none

/-- All scratch files created during one download_images_as_pdf call:
the executor shutdown waits for every submitted worker, so each worker
reaches its own outcome even after the collection loop has raised. -/
def createdFiles (outcomes : List DownloadOutcome) : List String :=
  outcomes.filterMap outcomePath

/-- The tmp_files list at the moment the call unwinds: the as_completed
loop (scraper.py 520-526) appends each successful result in completion
order and re-raises at the first failed future, collecting nothing
after it. -/
def tmp_files_at_exit (outcomes : List DownloadOutcome) :
    List Nat → List String
  | [] => []
  | i :: rest =>
    match outcomes.get? i with
    | some o =>
      match outcomeResult o with
      | some p => p :: tmp_files_at_exit outcomes rest
      | none => []
    | none => tmp_files_at_exit outcomes rest

/-- Scratch files still on disk after the call returns or raises: the
finally block (scraper.py 530-535) unlinks exactly the paths recorded in
tmp_files. -/
def leftoverFiles (outcomes : List DownloadOutcome)
    (completion : List Nat) : List String :=
  (createdFiles outcomes).filter
    (fun p => !((tmp_files_at_exit outcomes completion).contains p))

/-- C2 counterexample: two downloads; the second submitted completes
first and its GET fails, the loop re-raises, and the first download,
still in flight, then finishes and writes its temp file t0 — which the
finally block never deletes, because its path was never collected. -/
theorem c2_scratch_leak_counterexample :
    ¬ (∀ (outcomes : List DownloadOutcome) (completion : List Nat),
        completion.Perm (List.range outcomes.length) →
        leftoverFiles outcomes completion = []) := by
  intro hall
  have h := hall [.ok "t0", .httpFail] [1, 0] (by decide)
  exact absurd h (by decide)

theorem tmp_files_mem_of_ok {outcomes : List DownloadOutcome}
    (hok : ∀ o ∈ outcomes, ∃ q, o = DownloadOutcome.ok q)
    {completion : List Nat} {j : Nat} {p : String}
    (hj : j ∈ completion) (hget : outcomes.get? j = some (.ok p)) :
    p ∈ tmp_files_at_exit outcomes completion := by
  induction completion with
  | nil => cases hj
  | cons i rest ih =>
    rw [tmp_files_at_exit]
    cases hgi : outcomes.get? i with
    | none =>
      rcases List.mem_cons.mp hj with hji | hjr
      · subst hji
        rw [hget] at hgi
        cases hgi
      · exact ih hjr
    | some o =>
      obtain ⟨q, hq⟩ := hok o (List.get?_mem hgi)
      subst hq
      show p ∈ q :: tmp_files_at_exit outcomes rest
      rcases List.mem_cons.mp hj with hji | hjr
      · subst hji
        rw [hget] at hgi
        injection hgi with ho
        injection ho with hpq
        exact hpq ▸ List.mem_cons_self _ _
      · exact List.mem_cons_of_mem _ (ih hjr)

/-- C2 amended: on every exit path the finally block deletes every path
recorded in tmp_files (no collected file is ever left over), and when
every download succeeds no scratch file survives the call at all; but a
scratch file written by a download that completes after the first
failure, or that fails mid-write, can survive (see the counterexample). -/
theorem c2_scratch_cleanup (outcomes : List DownloadOutcome)
    (completion : List Nat)
    (hok : ∀ o ∈ outcomes, ∃ q, o = DownloadOutcome.ok q)
    (hcover : ∀ i, i < outcomes.length → i ∈ completion) :
    (∀ (outs : List DownloadOutcome) (comp : List Nat) (p : String),
      p ∈ tmp_files_at_exit outs comp → p ∉ leftoverFiles outs comp) ∧
    leftoverFiles outcomes completion = [] := by
  constructor
  · intro outs comp p hmem hleft
    rw [leftoverFiles, List.mem_filter] at hleft
    have hcontains : (tmp_files_at_exit outs comp).contains p = true :=
      List.elem_iff.mpr hmem
    rw [hcontains] at hleft
    exact absurd hleft.2 (by simp)
  · rw [leftoverFiles, List.filter_eq_nil]
    intro p hp
    rw [createdFiles, List.mem_filterMap] at hp
    obtain ⟨o, ho, hpo⟩ := hp
    obtain ⟨q, hq⟩ := hok o ho
    subst hq
    injection hpo with hqp
    subst hqp
    obtain ⟨j, hj⟩ := List.mem_iff_get?.mp ho
    have hlt : j < outcomes.length := List.get?_eq_some.mp hj |>.1
    have hmem : q ∈ tmp_files_at_exit outcomes completion :=
      tmp_files_mem_of_ok hok (hcover j hlt) hj
    simpa using hmem

/-- C2 witness: the cleanup theorem applied to one all-successful
download batch. -/
theorem c2_scratch_cleanup_witness :
    (∀ o ∈ ([DownloadOutcome.ok "t0"] : List DownloadOutcome),
      ∃ q, o = DownloadOutcome.ok q) ∧
    (∀ i, i < ([DownloadOutcome.ok "t0"] : List DownloadOutcome).length →
      i ∈ ([0] : List Nat)) ∧
    ((∀ (outs : List DownloadOutcome) (comp : List Nat) (p : String),
        p ∈ tmp_files_at_exit outs comp → p ∉ leftoverFiles outs comp) ∧
      leftoverFiles [DownloadOutcome.ok "t0"] [0] = []) := by
  have h1 : ∀ o ∈ ([DownloadOutcome.ok "t0"] : List DownloadOutcome),
      ∃ q, o = DownloadOutcome.ok q := by
    intro o ho
    rw [List.mem_singleton] at ho
    exact ⟨"t0", ho⟩
  have h2 : ∀ i, i < ([DownloadOutcome.ok "t0"] :
      List DownloadOutcome).length → i ∈ ([0] : List Nat) := by
    intro i hi
    have hi0 : i = 0 := by
      simp only [List.length_singleton] at hi
      omega
    simp [hi0]
  exact ⟨h1, h2, c2_scratch_cleanup [DownloadOutcome.ok "t0"] [0] h1 h2⟩

end MangaAPI
